import Mathlib

/-
Verification development for the spreadsheet ingestion pipeline in app.py.

The embedding models the pure content of the pipeline:
  - String operations (strip, lower, replace, contains, in) are modelled over
    the character list of the string, restricted to ASCII, which covers every
    value the pipeline manipulates in the claims.
  - Python floats are modelled as exact rationals in lowest terms (PyRat).
    The model is faithful for the decimal/scientific literals the pipeline
    produces; it diverges from IEEE 754 only where rounding would matter,
    which no claim touches.
  - Python int(...) / float(...) on strings are modelled by pyIntParse /
    pyFloatParse (sign, digit groups with single embedded underscores,
    decimal point, exponent part; surrounding whitespace stripped).
    Unicode digits and inf/nan spellings are outside the model; inf/nan
    cannot reach the float branch of _clean_cell_value because that branch
    requires a dot or the letter e in the text.
  - Effectful Google API calls are modelled by passing their outcome in as an
    Except String value; the functions under verification are the pure
    folds the source performs around those calls.
-/

/- Whitespace characters stripped by Python str.strip (ASCII range). -/
def wsChar (c : Char) : Bool :=
  c.toNat == 32 || c.toNat == 9 || c.toNat == 10 || c.toNat == 13 ||
  c.toNat == 11 || c.toNat == 12

/- Python str.strip(): drop whitespace from both ends. -/
def pyStrip (s : String) : String :=
  String.mk (((s.toList.dropWhile wsChar).reverse.dropWhile wsChar).reverse)

def isUpperCh (c : Char) : Bool := 65 ≤ c.toNat && c.toNat ≤ 90

def isLowerCh (c : Char) : Bool := 97 ≤ c.toNat && c.toNat ≤ 122

def isAlphaCh (c : Char) : Bool := isUpperCh c || isLowerCh c

def isDigitCh (c : Char) : Bool := 48 ≤ c.toNat && c.toNat ≤ 57

def lowerChar (c : Char) : Char := if isUpperCh c then Char.ofNat (c.toNat + 32) else c

/- Python s.lower() (ASCII). -/
def strLower (s : String) : String := String.mk (s.toList.map lowerChar)

/- Python membership test: character c occurs in s. -/
def containsChar (s : String) (c : Char) : Bool := s.toList.any (fun x => x == c)

/- The apostrophe character, written by code point. -/
def quoteChar : Char := Char.ofNat 39

/- Python s.replace("'", ""): remove every apostrophe. -/
def dequote (s : String) : String :=
  String.mk (s.toList.filter (fun c => c != quoteChar))

/- Fuel-driven Euclid, enough fuel provided by the wrapper below. -/
def gcdF : Nat → Nat → Nat → Nat
  | 0, _, b => b
  | f + 1, a, b => if a = 0 then b else gcdF f (b % a) a

def natGcd (a b : Nat) : Nat := gcdF (a + 1) a b

/- Exact rational in lowest terms with positive denominator; models a Python
float produced by parsing a decimal/scientific literal. -/
structure PyRat where
  num : Int
  den : Nat
deriving DecidableEq, Repr

def mkPyRat (n : Int) (d : Nat) : PyRat :=
  if d = 0 then ⟨0, 0⟩
  else
    let g := natGcd n.natAbs d
    if g = 0 then ⟨0, 1⟩ else ⟨n / (g : Int), d / g⟩

/- Scalar domain of a cell.  empty models Python None and pandas NaN. -/
inductive Scalar where
  | empty
  | intV (n : Int)
  | floatV (q : PyRat)
  | strV (s : String)
deriving DecidableEq, Repr

/- Characters allowed inside a Python numeric literal digit group. -/
def digitOrUnder (c : Char) : Bool := isDigitCh c || c == '_'

/- Valid Python digit group: nonempty digits, single underscores strictly
between digits (as accepted by int() and float()). -/
def vdgCore : List Char → Bool
  | [] => false
  | [c] => isDigitCh c
  | c :: d :: rest =>
    isDigitCh c &&
      (if d == '_' then
        (match rest with
         | [] => false
         | _ :: _ => vdgCore rest)
      else vdgCore (d :: rest))

def groupDigits (g : List Char) : List Char := g.filter isDigitCh

def digitsToNat (ds : List Char) : Nat :=
  ds.foldl (fun a c => a * 10 + (c.toNat - 48)) 0

def groupValNat (g : List Char) : Nat := digitsToNat (groupDigits g)

def takeSign : List Char → Int × List Char
  | [] => (1, [])
  | c :: r =>
    if c == '+' then (1, r)
    else if c == '-' then (-1, r)
    else (1, c :: r)

/- Python int(s) for base-10 string input. -/
def pyIntParse (s : String) : Option Int :=
  let cs := (pyStrip s).toList
  let p := takeSign cs
  if vdgCore p.2 then some (p.1 * (groupValNat p.2 : Int)) else none

/- Value of a decimal mantissa ip . fp with the given sign. -/
def ratMantissa (sg : Int) (ip fp : List Char) : PyRat :=
  mkPyRat (sg * ((groupValNat ip * 10 ^ (groupDigits fp).length + groupValNat fp : Nat) : Int))
    (10 ^ (groupDigits fp).length)

/- Scale a mantissa by 10 to a signed exponent. -/
def scalePow10 (m : PyRat) (esg : Int) (e : Nat) : PyRat :=
  if 0 ≤ esg then mkPyRat (m.num * ((10 ^ e : Nat) : Int)) m.den
  else mkPyRat m.num (m.den * 10 ^ e)

/- Exponent suffix of a float literal: sign and digit group after e/E. -/
def parseExpPart (m : PyRat) (rest : List Char) : Option PyRat :=
  let p := takeSign rest
  if vdgCore p.2 then some (scalePow10 m p.1 (groupValNat p.2)) else none

/- Python float(s) for finite decimal/scientific string input. -/
def pyFloatParse (s : String) : Option PyRat :=
  let cs := (pyStrip s).toList
  let p := takeSign cs
  let ip := p.2.takeWhile digitOrUnder
  let r2 := p.2.dropWhile digitOrUnder
  match r2 with
  | [] => if vdgCore ip then some (mkPyRat (p.1 * (groupValNat ip : Int)) 1) else none
  | c :: r3 =>
    if c == '.' then
      let fp := r3.takeWhile digitOrUnder
      let r4 := r3.dropWhile digitOrUnder
      if (ip.isEmpty || vdgCore ip) && (fp.isEmpty || vdgCore fp)
          && (!(groupDigits ip).isEmpty || !(groupDigits fp).isEmpty) then
        match r4 with
        | [] => some (ratMantissa p.1 ip fp)
        | e :: r5 =>
          if e == 'e' || e == 'E' then parseExpPart (ratMantissa p.1 ip fp) r5 else none
      else none
    else if (c == 'e' || c == 'E') && vdgCore ip then
      parseExpPart (mkPyRat (p.1 * (groupValNat ip : Int)) 1) r3
    else none

/- The CellCoercion routine _clean_cell_value: None stays None; otherwise
strip surrounding whitespace, remove apostrophes, then parse as float when
the text contains a dot or the letter e (any case), else as int; on parse
failure keep the cleaned text. -/
def cleanCellValue : Option String → Option Scalar
  | none => none
  | some raw =>
    let value := dequote (pyStrip raw)
    if containsChar value '.' || containsChar (strLower value) 'e' then
      match pyFloatParse value with
      | some q => some (Scalar.floatV q)
      | none => some (Scalar.strV value)
    else
      match pyIntParse value with
      | some n => some (Scalar.intV n)
      | none => some (Scalar.strV value)

/- Column letters of a cell reference, folded base 26 with A = 1. -/
def colLettersToNum (ls : List Char) : Nat :=
  ls.foldl (fun a c => a * 26 + (c.toNat - 64)) 0

/- Cell-reference decoding in _try_raw_xml_extraction: the alphabetic
characters give the column number, the digit characters the 1-based row. -/
def parseCellRef (s : String) : Nat × Nat :=
  (digitsToNat (s.toList.filter isDigitCh),
   colLettersToNum (s.toList.filter isAlphaCh))


/- Multiplicity of prime p in n, fuel-driven. -/
def pMultAux (p : Nat) : Nat → Nat → Nat
  | 0, _ => 0
  | f + 1, m => if 2 ≤ p ∧ m ≠ 0 ∧ m % p = 0 then 1 + pMultAux p f (m / p) else 0

def pMult (p n : Nat) : Nat := pMultAux p n n

def padZeros (k : Nat) (s : String) : String :=
  String.mk (List.replicate (k - s.length) '0') ++ s

/- Python str() of a float whose value is the exact rational q: the shortest
decimal representation when the denominator is of the form 2^a * 5^b (the
only case the pipeline produces); integral values get a trailing ".0" as in
Python. -/
def pyStrRat (q : PyRat) : String :=
  let a := pMult 2 q.den
  let b := pMult 5 q.den
  if 2 ^ a * 5 ^ b = q.den then
    let k := max a b
    let scaled := q.num.natAbs * (10 ^ k / q.den)
    let sign := if q.num < 0 then "-" else ""
    let ipart := scaled / 10 ^ k
    let fpart := scaled % 10 ^ k
    if k = 0 then sign ++ toString ipart ++ ".0"
    else sign ++ toString ipart ++ "." ++ padZeros k (toString fpart)
  else toString q.num ++ "/" ++ toString q.den

/- Python str() of a scalar; empty prints "nan" as pandas astype(str) does to
a missing value, the only route on which the code stringifies one. -/
def pyStr : Scalar → String
  | Scalar.empty => "nan"
  | Scalar.intV n => toString n
  | Scalar.floatV q => pyStrRat q
  | Scalar.strV s => s

/- A pandas DataFrame: ordered column names plus rows of scalars. -/
structure Table where
  cols : List String
  rows : List (List Scalar)
deriving DecidableEq, Repr

def emptyTable : Table := ⟨[], []⟩

/- pandas df.empty: true when either axis has length zero. -/
def Table.isEmpty (t : Table) : Bool := t.rows.isEmpty || t.cols.isEmpty

/- Keep the first row for each key, in order (pandas drop_duplicates
keep="first", with the key given by k). -/
def dedupByKeyAux {α β : Type} [DecidableEq β] (k : α → β) (seen : List β) :
    List α → List α
  | [] => []
  | a :: as =>
    if k a ∈ seen then dedupByKeyAux k seen as
    else a :: dedupByKeyAux k (k a :: seen) as

def dedupByKey {α β : Type} [DecidableEq β] (k : α → β) (l : List α) : List α :=
  dedupByKeyAux k [] l

def dedupFirst {α : Type} [DecidableEq α] (l : List α) : List α :=
  dedupByKey (fun a => a) l

/- Column j has pandas dtype object: it contains at least one string cell.
A DataFrame column with only numbers (or only missing values) is numeric. -/
def colIsObject (t : Table) (j : Nat) : Bool :=
  t.rows.any (fun r =>
    match r.getD j Scalar.empty with
    | Scalar.strV _ => true
    | _ => false)

/- astype(str).str.strip().str.replace "'" -> "" applied to one cell. -/
def normCell (c : Scalar) : Scalar := Scalar.strV (dequote (pyStrip (pyStr c)))

/- Step (1) of _clean_dataframe: normalize every cell of every object-typed
column. -/
def normalizeRows (t : Table) : List (List Scalar) :=
  t.rows.map (fun r =>
    r.enum.map (fun ic => if colIsObject t ic.1 then normCell ic.2 else ic.2))

/- The row-dropping mask of _clean_dataframe on the (already normalized)
second-column cell: missing, blank after strip, or the text "nan". -/
def isBlankKey (c : Scalar) : Bool :=
  match c with
  | Scalar.empty => true
  | c =>
    let s := pyStrip (pyStr c)
    s == "" || s == "nan"

/- _clean_dataframe: empty frames unchanged; otherwise normalize object
columns, drop rows with a blank second column when there are at least two
columns, then drop exact duplicate rows keeping the first. -/
def cleanDataframe (t : Table) : Table :=
  if t.isEmpty then t
  else
    let rows1 := normalizeRows t
    let rows2 :=
      if 2 ≤ t.cols.length then
        rows1.filter (fun r => !(isBlankKey (r.getD 1 Scalar.empty)))
      else rows1
    ⟨t.cols, dedupFirst rows2⟩

/- Python truthiness of a scalar (None, 0, 0.0 and "" are falsy). -/
def pyTruthy : Scalar → Bool
  | Scalar.empty => false
  | Scalar.intV n => n != 0
  | Scalar.floatV q => q.num != 0
  | Scalar.strV s => s != ""

def colNamesFor (n : Nat) : List String :=
  (List.range n).map (fun i => "Column_" ++ toString (i + 1))

/- Header synthesis of _try_raw_xml_extraction for a chosen header row:
str(h) for truthy cells, else a synthesized Column_i name. -/
def synthHeaders (row : List Scalar) : List String :=
  row.enum.map (fun ih =>
    if pyTruthy ih.2 then pyStr ih.2 else "Column_" ++ toString (ih.1 + 1))

/- Tail of _try_raw_xml_extraction: apply the header-row selector to the
dense recovered grid (rows of equal width, entirely-empty rows already
dropped).  headerRow = -1 is the no-header sentinel; the model is faithful
for headerRow ≥ -1, the selector domain of the config. -/
def rawXmlBuildTable (data : List (List Scalar)) (headerRow : Int) : Table :=
  if (data.length : Int) < max 1 (headerRow + 2) then emptyTable
  else if headerRow = -1 then ⟨colNamesFor (data.headD []).length, data⟩
  else if headerRow.toNat < data.length then
    ⟨synthHeaders (data.getD headerRow.toNat []), data.drop (headerRow.toNat + 1)⟩
  else emptyTable

def listStartsWith {α : Type} [BEq α] : List α → List α → Bool
  | [], _ => true
  | _ :: _, [] => false
  | a :: as, b :: bs => a == b && listStartsWith as bs

def strEndsWith (s suffix : String) : Bool :=
  listStartsWith suffix.toList.reverse s.toList.reverse

/- Gate for the legacy xlrd strategy: filename.lower().endswith(".xls"). -/
def legacyEligible (filename : String) : Bool := strEndsWith (strLower filename) ".xls"

/- Third strategy of _read_excel_file_robust: raw XML recovery, cleaned when
non-empty. -/
def readStage3 (raw : Table) : Table :=
  if !raw.isEmpty then cleanDataframe raw else emptyTable

/- Second strategy: the xlrd parse outcome, attempted only for legacy
filenames; its exception is swallowed. -/
def readStage2 (s2 : Except String Table) (raw : Table) (filename : String) : Table :=
  if legacyEligible filename then
    match s2 with
    | Except.ok t => if !t.isEmpty then cleanDataframe t else readStage3 raw
    | Except.error _ => readStage3 raw
  else readStage3 raw

/- _read_excel_file_robust: dl is whether the download succeeded (a failure
reaches the outer handler which returns an empty frame); s1 and s2 are the
openpyxl and xlrd parse outcomes; raw is the raw-XML recovery result. -/
def readExcelFileRobust (dl : Bool) (s1 s2 : Except String Table) (raw : Table)
    (filename : String) : Table :=
  if dl then
    match s1 with
    | Except.ok t => if !t.isEmpty then cleanDataframe t else readStage2 s2 raw filename
    | Except.error _ => readStage2 s2 raw filename
  else emptyTable

def tableOfResult : Except String Table → Table
  | Except.ok t => t
  | Except.error _ => emptyTable

def strategyTables (s1 s2 : Except String Table) (raw : Table) (filename : String) :
    List Table :=
  [tableOfResult s1] ++ (if legacyEligible filename then [tableOfResult s2] else []) ++ [raw]

/- The cleaned first non-empty table of a candidate list, or the empty
table. -/
def firstClean (cands : List Table) : Table :=
  match cands.find? (fun t => !t.isEmpty) with
  | some t => cleanDataframe t
  | none => emptyTable

/- Modelled from the spec: the ordered-strategy contract of the extractor --
the first non-empty strategy result wins and is cleaned; everything-empty
gives an empty table. -/
def firstNonEmptyStrategy (dl : Bool) (s1 s2 : Except String Table) (raw : Table)
    (filename : String) : Table :=
  if dl then firstClean (strategyTables s1 s2 raw filename)
  else emptyTable


def sourceFileNameKey : List Char := "source_file_name".toList

def listHasInfix {α : Type} [BEq α] (needle : List α) : List α → Bool
  | [] => needle.isEmpty
  | h :: t => listStartsWith needle (h :: t) || listHasInfix needle t

/- Header test of _get_source_file_names_from_sheet: the header cell is
truthy and contains "source_file_name" after lowercasing. -/
def isTrackingHeader (h : String) : Bool :=
  h != "" && listHasInfix sourceFileNameKey (strLower h).toList

/- Index of the first tracking header, as the enumerate loop finds it. -/
def trackingIdx (headers : List String) : Option Nat :=
  List.findIdx? isTrackingHeader headers

/- _get_source_file_names_from_sheet on successfully fetched cell values:
the stripped, non-blank entries of the tracking column of the data rows. -/
def getSourceFileNames (values : List (List String)) : List String :=
  match values with
  | [] => []
  | headers :: rows =>
    match trackingIdx headers with
    | none => []
    | some i =>
      rows.filterMap (fun r =>
        if i < r.length then
          if pyStrip (r.getD i "") ≠ "" then some (pyStrip (r.getD i "")) else none
        else none)

/- The raw (unstripped) cells sitting in the tracking column; the notion the
spec's "existing value in that column" refers to. -/
def trackingColumnCells (values : List (List String)) : List String :=
  match values with
  | [] => []
  | headers :: rows =>
    match trackingIdx headers with
    | none => []
    | some i =>
      rows.filterMap (fun r => if i < r.length then some (r.getD i "") else none)

/- The whole ledger read, exceptions included: any failure yields the empty
set (the except branch of _get_source_file_names_from_sheet). -/
def getSourceFileNamesRun (res : Except String (List (List String))) : List String :=
  match res with
  | Except.ok values => getSourceFileNames values
  | Except.error _ => []

/- Serialization of _append_to_sheet.process_value: missing becomes blank,
numbers pass through, everything else is stringified. -/
def appendProcessValue : Scalar → Scalar
  | Scalar.empty => Scalar.strV ""
  | Scalar.intV n => Scalar.intV n
  | Scalar.floatV q => Scalar.floatV q
  | Scalar.strV s => Scalar.strV s

/- One candidate file of the Drive listing, with the outcomes of the
effectful steps taken for it: the extraction result of
_read_excel_file_robust (which never throws) and the outcome of the sheets
append API call. -/
structure WFile where
  name : String
  extracted : Table
  appendOk : Except String Unit
deriving Repr

/- The rows _append_to_sheet would write for a file: its extracted rows,
serialized, tagged with the source file name in a trailing column. -/
def taggedValues (f : WFile) : List (List Scalar) :=
  f.extracted.rows.map (fun r => r.map appendProcessValue ++ [Scalar.strV f.name])

/- _append_to_sheet: builds the values and issues the append call; an API
exception is logged and re-raised (the raise in its except branch). -/
def appendToSheet (values : List (List Scalar)) (api : Except String Unit) :
    Except String Unit :=
  if values.isEmpty then Except.ok ()
  else
    match api with
    | Except.error e => Except.error e
    | Except.ok _ => Except.ok ()

structure BatchOut where
  processed : Nat
  failed : Nat
  appendedNames : List String
deriving Repr, DecidableEq

/- The per-file loop of process_excel_workflow: empty extraction counts as
failed; an append exception is caught at the file boundary, counts the file
as failed, and the loop continues; a successful append counts the file as
processed and its rows (tagged with its name) are in the destination. -/
def processFiles : List WFile → BatchOut
  | [] => ⟨0, 0, []⟩
  | f :: fs =>
    let r := processFiles fs
    if f.extracted.isEmpty then ⟨r.processed, r.failed + 1, r.appendedNames⟩
    else
      match appendToSheet (taggedValues f) f.appendOk with
      | Except.error _ => ⟨r.processed, r.failed + 1, r.appendedNames⟩
      | Except.ok _ => ⟨r.processed + 1, r.failed, f.name :: r.appendedNames⟩

structure WStats where
  found : Nat
  skippedCount : Nat
  processedCount : Nat
  failedCount : Nat
  appendedNames : List String
deriving Repr, DecidableEq

/- The ledger filter of process_excel_workflow: files whose name is in the
processed set are skipped, the rest are processed in order. -/
def workflowToProcess (ledger : List String) (files : List WFile) : List WFile :=
  files.filter (fun f => !(ledger.contains f.name))

/- process_excel_workflow: read the ledger (ledgerRead is the outcome of the
values.get call), skip files already recorded, run the per-file loop on the
rest. -/
def processExcelWorkflow (ledgerRead : Except String (List (List String)))
    (files : List WFile) : WStats :=
  let ledger := getSourceFileNamesRun ledgerRead
  let out := processFiles (workflowToProcess ledger files)
  ⟨files.length, files.countP (fun f => ledger.contains f.name),
   out.processed, out.failed, out.appendedNames⟩

/- Serialization of _remove_duplicates_from_sheet.process_value: blank stays
blank; text with a dot or an e parses as float, otherwise as int; on
failure the text stands. -/
def processValueOut (s : String) : Scalar :=
  if s = "" then Scalar.strV ""
  else if containsChar s '.' || containsChar (strLower s) 'e' then
    match pyFloatParse s with
    | some q => Scalar.floatV q
    | none => Scalar.strV s
  else
    match pyIntParse s with
    | some n => Scalar.intV n
    | none => Scalar.strV s

/- max(len(row) for row in values). -/
def pyMaxLen (values : List (List String)) : Nat :=
  (values.map List.length).foldl max 0

def padRow (n : Nat) (r : List String) : List String :=
  r ++ List.replicate (n - r.length) ""

/- Headers rebuilt by _remove_duplicates_from_sheet: the padded first row
with blank cells replaced by synthesized Column_i names. -/
def compactHeaders (values : List (List String)) : List String :=
  (List.range (pyMaxLen values)).map (fun i =>
    let h := (values.headD []).getD i ""
    if h ≠ "" then h else "Column_" ++ toString (i + 1))

/- The padded data rows (values[1:]). -/
def compactDataRows (values : List (List String)) : List (List String) :=
  (values.map (padRow (pyMaxLen values))).drop 1

/- The (Skucode, PoNo) key of a padded row given the two column indices. -/
def rowKeyPair (si pi2 : Nat) (r : List String) : String × String :=
  (r.getD si "", r.getD pi2 "")

/- drop_duplicates(subset=["Skucode","PoNo"], keep="first"), performed only
when both key columns exist.  Duplicate header labels do not occur in the
destinations this models; the first index stands for the pandas label. -/
def compactDedup (values : List (List String)) : List (List String) :=
  match List.findIdx? (fun h => h = "Skucode") (compactHeaders values),
      List.findIdx? (fun h => h = "PoNo") (compactHeaders values) with
  | some si, some pi2 => dedupByKey (rowKeyPair si pi2) (compactDataRows values)
  | _, _ => compactDataRows values

/- replace blank with NA then dropna(how="all"): rows with some non-blank
cell survive. -/
def prunedRows (values : List (List String)) : List (List String) :=
  (compactDedup values).filter (fun r => r.any (fun c => c != ""))

/- dropna(how="all", axis=1): the indices of columns retaining a non-blank
cell. -/
def compactKeptCols (values : List (List String)) : List Nat :=
  (List.range (compactHeaders values).length).filter (fun j =>
    (prunedRows values).any (fun r => !(r.getD j "" == "")))

def compactHeaders2 (values : List (List String)) : List String :=
  (compactKeptCols values).map (fun j => (compactHeaders values).getD j "")

def compactRows2 (values : List (List String)) : List (List String) :=
  (prunedRows values).map (fun r => (compactKeptCols values).map (fun j => r.getD j ""))

def insertSorted {α : Type} (le : α → α → Bool) (a : α) : List α → List α
  | [] => [a]
  | b :: bs => if le a b then a :: b :: bs else b :: insertSorted le a bs

/- A comparison sort; pandas sort_values uses quicksort whose tie order is
unspecified, so only value-level facts are claimed about the result. -/
def sortByLe {α : Type} (le : α → α → Bool) : List α → List α
  | [] => []
  | a :: as => insertSorted le a (sortByLe le as)

def listLexLe : List Nat → List Nat → Bool
  | [], _ => true
  | _ :: _, [] => false
  | a :: as, b :: bs => a < b || (a == b && listLexLe as bs)

/- Python string comparison: code-point lexicographic. -/
def pyStrLe (a b : String) : Bool :=
  listLexLe (a.toList.map Char.toNat) (b.toList.map Char.toNat)

/- sort_values(by="PoNo", ascending=True), applied only when the PoNo column
survived the column pruning. -/
def compactSorted (values : List (List String)) : List (List String) :=
  match List.findIdx? (fun h => h = "PoNo") (compactHeaders2 values) with
  | some k => sortByLe (fun r1 r2 => pyStrLe (r1.getD k "") (r2.getD k "")) (compactRows2 values)
  | none => compactRows2 values

/- The values _remove_duplicates_from_sheet writes back: stringified headers
then the serialized sorted rows. -/
def compactWritten (values : List (List String)) : List (List Scalar) :=
  ((compactHeaders2 values).map Scalar.strV) :: (compactSorted values).map (fun r => r.map processValueOut)

def compactRemovedDup (values : List (List String)) : Nat :=
  (compactDataRows values).length - (compactDedup values).length

def compactRemovedBlank (values : List (List String)) : Nat :=
  (compactDedup values).length - (prunedRows values).length

/- _remove_duplicates_from_sheet with its effect outcomes: a failed read,
an empty sheet, or a failed clear/update all end in return 0 through the
except branch; only a fully successful run reports the duplicate count. -/
def removeDuplicatesRun (readRes : Except String (List (List String)))
    (writeRes : Except String Unit) : Nat :=
  match readRes with
  | Except.error _ => 0
  | Except.ok values =>
    if values.isEmpty then 0
    else
      match writeRes with
      | Except.error _ => 0
      | Except.ok _ => compactRemovedDup values


/- Concrete fixtures used by witnesses and counterexamples. -/

def demoTable : Table := ⟨["A"], [[Scalar.intV 1]]⟩

def dupRowsTable : Table :=
  ⟨["A", "B"], [[Scalar.intV 1, Scalar.intV 1], [Scalar.intV 1, Scalar.intV 1]]⟩

def grid34 : List (List Scalar) :=
  [[Scalar.intV 1, Scalar.intV 2, Scalar.intV 3, Scalar.intV 4],
   [Scalar.intV 5, Scalar.intV 6, Scalar.intV 7, Scalar.intV 8],
   [Scalar.intV 9, Scalar.intV 10, Scalar.intV 11, Scalar.intV 12]]

/- The text " 'nan' ": an apostrophe-wrapped nan with surrounding spaces. -/
def quotedNanPadded : String :=
  String.mk [' ', quoteChar, 'n', 'a', 'n', quoteChar, ' ']

def tCleanDemo : Table :=
  ⟨["A", "B"],
   [[Scalar.strV " x ", Scalar.strV "k"], [Scalar.strV "x", Scalar.strV "k"],
    [Scalar.strV "b", Scalar.strV ""]]⟩

def cexValues : List (List String) :=
  [["Skucode", "PoNo", "X"], ["", "", ""], ["", "", ""], ["a", "b", "c"]]

def drift9 : List (List String) :=
  [["A", "PoNo"], ["", ""], ["x", "2"], ["y", "1"]]

def dupPairValues : List (List String) :=
  [["Skucode", "PoNo"], ["1", "2"], ["1", "2"], ["3", "4"]]

theorem dedupByKeyAux_filter {α β : Type} [DecidableEq β] (k : α → β) (p : β) :
    ∀ (l : List α) (seen : List β),
      (dedupByKeyAux k seen l).filter (fun a => decide (k a = p)) =
        if p ∈ seen then [] else (l.filter (fun a => decide (k a = p))).take 1 := by
  intro l
  induction l with
  | nil => intro seen; by_cases hp : p ∈ seen <;> simp [dedupByKeyAux, hp]
  | cons a as ih =>
    intro seen
    by_cases hk : k a ∈ seen
    · by_cases hp : p ∈ seen
      · simp [dedupByKeyAux, hk, hp, ih]
      · have hkp : ¬ k a = p := fun h => hp (h ▸ hk)
        simp [dedupByKeyAux, hk, hp, ih, List.filter_cons, hkp]
    · by_cases hap : k a = p
      · have hp : ¬ p ∈ seen := fun h => hk (hap ▸ h)
        simp [dedupByKeyAux, hk, hp, ih, List.filter_cons, hap, List.mem_cons]
      · by_cases hp : p ∈ seen <;>
          simp [dedupByKeyAux, hk, hp, ih, List.filter_cons, hap, List.mem_cons] <;>
          exact fun h => absurd h.symm hap

theorem dedupByKey_filter {α β : Type} [DecidableEq β] (k : α → β) (p : β) (l : List α) :
    (dedupByKey k l).filter (fun a => decide (k a = p)) =
      (l.filter (fun a => decide (k a = p))).take 1 := by
  have := dedupByKeyAux_filter k p l []
  simpa [dedupByKey] using this

theorem dedupByKeyAux_sublist {α β : Type} [DecidableEq β] (k : α → β) :
    ∀ (l : List α) (seen : List β), (dedupByKeyAux k seen l).Sublist l := by
  intro l
  induction l with
  | nil => intro seen; simp [dedupByKeyAux]
  | cons a as ih =>
    intro seen
    by_cases hk : k a ∈ seen
    · simpa [dedupByKeyAux, hk] using (ih seen).cons a
    · simpa [dedupByKeyAux, hk] using (ih (k a :: seen)).cons₂ a

theorem dedupByKeyAux_notin_seen {α β : Type} [DecidableEq β] (k : α → β) :
    ∀ (l : List α) (seen : List β) (x : α), x ∈ dedupByKeyAux k seen l → k x ∉ seen := by
  intro l
  induction l with
  | nil => intro seen x hx; simp [dedupByKeyAux] at hx
  | cons a as ih =>
    intro seen x hx
    by_cases hk : k a ∈ seen
    · rw [show dedupByKeyAux k seen (a :: as) = dedupByKeyAux k seen as from by
        simp [dedupByKeyAux, hk]] at hx
      exact ih seen x hx
    · rw [show dedupByKeyAux k seen (a :: as) = a :: dedupByKeyAux k (k a :: seen) as from by
        simp [dedupByKeyAux, hk]] at hx
      rcases List.mem_cons.mp hx with h | h
      · subst h; exact hk
      · intro hmem
        exact ih (k a :: seen) x h (List.mem_cons_of_mem _ hmem)

theorem dedupByKeyAux_pairwise {α β : Type} [DecidableEq β] (k : α → β) :
    ∀ (l : List α) (seen : List β),
      (dedupByKeyAux k seen l).Pairwise (fun x y => k x ≠ k y) := by
  intro l
  induction l with
  | nil => intro seen; simp [dedupByKeyAux]
  | cons a as ih =>
    intro seen
    by_cases hk : k a ∈ seen
    · rw [show dedupByKeyAux k seen (a :: as) = dedupByKeyAux k seen as from by
        simp [dedupByKeyAux, hk]]
      exact ih seen
    · rw [show dedupByKeyAux k seen (a :: as) = a :: dedupByKeyAux k (k a :: seen) as from by
        simp [dedupByKeyAux, hk]]
      refine List.Pairwise.cons ?_ (ih (k a :: seen))
      intro y hy hEq
      exact dedupByKeyAux_notin_seen k as (k a :: seen) y hy
        (by rw [← hEq]; exact List.mem_cons_self _ _)

theorem mem_dedupByKeyAux_id {α : Type} [DecidableEq α] :
    ∀ (l seen : List α) (x : α),
      x ∈ dedupByKeyAux (fun a => a) seen l ↔ x ∈ l ∧ x ∉ seen := by
  intro l
  induction l with
  | nil => intro seen x; simp [dedupByKeyAux]
  | cons a as ih =>
    intro seen x
    by_cases hk : a ∈ seen
    · rw [show dedupByKeyAux (fun a => a) seen (a :: as) = dedupByKeyAux (fun a => a) seen as
        from by simp [dedupByKeyAux, hk]]
      rw [ih]
      constructor
      · rintro ⟨h1, h2⟩; exact ⟨List.mem_cons_of_mem _ h1, h2⟩
      · rintro ⟨h1, h2⟩
        rcases List.mem_cons.mp h1 with h | h
        · exact absurd (by rw [h]; exact hk) h2
        · exact ⟨h, h2⟩
    · rw [show dedupByKeyAux (fun a => a) seen (a :: as) =
          a :: dedupByKeyAux (fun a => a) (a :: seen) as from by simp [dedupByKeyAux, hk]]
      constructor
      · intro hx
        rcases List.mem_cons.mp hx with h | h
        · subst h; exact ⟨List.mem_cons_self _ _, hk⟩
        · have hm := (ih (a :: seen) x).mp h
          exact ⟨List.mem_cons_of_mem _ hm.1, fun hs => hm.2 (List.mem_cons_of_mem _ hs)⟩
      · rintro ⟨h1, h2⟩
        rcases List.mem_cons.mp h1 with h | h
        · subst h; exact List.mem_cons_self _ _
        · by_cases hxa : x = a
          · subst hxa; exact List.mem_cons_self _ _
          · refine List.mem_cons_of_mem _ ((ih (a :: seen) x).mpr ⟨h, ?_⟩)
            simp [List.mem_cons, hxa, h2]

theorem mem_dedupFirst {α : Type} [DecidableEq α] (l : List α) (x : α) :
    x ∈ dedupFirst l ↔ x ∈ l := by
  have := mem_dedupByKeyAux_id l [] x
  simpa [dedupFirst, dedupByKey] using this

theorem dedupFirst_nodup {α : Type} [DecidableEq α] (l : List α) :
    (dedupFirst l).Nodup := by
  have h := dedupByKeyAux_pairwise (fun a : α => a) l []
  exact h.imp (fun hxy => hxy)

theorem dedupFirst_sublist {α : Type} [DecidableEq α] (l : List α) :
    (dedupFirst l).Sublist l :=
  dedupByKeyAux_sublist (fun a : α => a) l []

theorem processFiles_append (xs ys : List WFile) :
    (processFiles (xs ++ ys)).processed = (processFiles xs).processed + (processFiles ys).processed
    ∧ (processFiles (xs ++ ys)).failed = (processFiles xs).failed + (processFiles ys).failed
    ∧ (processFiles (xs ++ ys)).appendedNames =
        (processFiles xs).appendedNames ++ (processFiles ys).appendedNames := by
  induction xs with
  | nil => simp [processFiles]
  | cons f fs ih =>
    obtain ⟨ih1, ih2, ih3⟩ := ih
    by_cases he : f.extracted.isEmpty
    · refine ⟨?_, ?_, ?_⟩ <;> simp [processFiles, he, ih1, ih2, ih3] <;> omega
    · cases hap : appendToSheet (taggedValues f) f.appendOk with
      | error e =>
        refine ⟨?_, ?_, ?_⟩ <;> simp [processFiles, he, hap, ih1, ih2, ih3] <;> omega
      | ok u =>
        refine ⟨?_, ?_, ?_⟩ <;> simp [processFiles, he, hap, ih1, ih2, ih3] <;> omega

theorem processFiles_names_sub (fs : List WFile) :
    ∀ n, n ∈ (processFiles fs).appendedNames → n ∈ fs.map WFile.name := by
  induction fs with
  | nil => simp [processFiles]
  | cons f fs ih =>
    intro n hn
    by_cases he : f.extracted.isEmpty
    · simp only [processFiles, he, if_true] at hn
      exact List.mem_cons_of_mem _ (ih n hn)
    · cases hap : appendToSheet (taggedValues f) f.appendOk with
      | error e =>
        simp only [processFiles, he, if_false, Bool.false_eq_true, hap] at hn
        exact List.mem_cons_of_mem _ (ih n hn)
      | ok u =>
        simp only [processFiles, he, if_false, Bool.false_eq_true, hap, List.mem_cons] at hn
        rcases hn with h | h
        · simp [h]
        · exact List.mem_cons_of_mem _ (ih n h)

theorem processFiles_total (fs : List WFile) :
    (processFiles fs).processed + (processFiles fs).failed = fs.length := by
  induction fs with
  | nil => simp [processFiles]
  | cons f fs ih =>
    by_cases he : f.extracted.isEmpty
    · simp [processFiles, he]; omega
    · cases hap : appendToSheet (taggedValues f) f.appendOk with
      | error e => simp [processFiles, he, hap]; omega
      | ok u => simp [processFiles, he, hap]; omega

theorem length_insertSorted {α : Type} (le : α → α → Bool) (a : α) :
    ∀ l : List α, (insertSorted le a l).length = l.length + 1 := by
  intro l
  induction l with
  | nil => simp [insertSorted]
  | cons b bs ih => by_cases h : le a b <;> simp [insertSorted, h, ih]

theorem length_sortByLe {α : Type} (le : α → α → Bool) :
    ∀ l : List α, (sortByLe le l).length = l.length := by
  intro l
  induction l with
  | nil => simp [sortByLe]
  | cons a as ih => simp [sortByLe, length_insertSorted, ih]

theorem isDigitCh_not_isAlphaCh (c : Char) (h : isDigitCh c = true) : isAlphaCh c = false := by
  simp only [isDigitCh, Bool.and_eq_true, decide_eq_true_eq] at h
  apply Bool.eq_false_iff.mpr
  intro hc
  simp only [isAlphaCh, isUpperCh, isLowerCh, Bool.or_eq_true, Bool.and_eq_true,
    decide_eq_true_eq] at hc
  omega

theorem isAlphaCh_not_isDigitCh (c : Char) (h : isAlphaCh c = true) : isDigitCh c = false := by
  simp only [isAlphaCh, isUpperCh, isLowerCh, Bool.or_eq_true, Bool.and_eq_true,
    decide_eq_true_eq] at h
  apply Bool.eq_false_iff.mpr
  intro hc
  simp only [isDigitCh, Bool.and_eq_true, decide_eq_true_eq] at hc
  omega

theorem emptyTable_isEmpty : emptyTable.isEmpty = true := rfl

theorem firstClean_cons (t : Table) (rest : List Table) :
    firstClean (t :: rest) = if t.isEmpty then firstClean rest else cleanDataframe t := by
  by_cases h : t.isEmpty <;> simp [firstClean, List.find?_cons, h]

theorem readStage3_eq (raw : Table) : readStage3 raw = firstClean [raw] := by
  by_cases h : raw.isEmpty <;> simp [readStage3, firstClean_cons, firstClean, h]

theorem readStage2_eq (s2 : Except String Table) (raw : Table) (fn : String) :
    readStage2 s2 raw fn =
      firstClean ((if legacyEligible fn then [tableOfResult s2] else []) ++ [raw]) := by
  by_cases he : legacyEligible fn
  · cases s2 with
    | ok t2 =>
      by_cases h2 : t2.isEmpty <;>
        simp [readStage2, he, tableOfResult, h2, firstClean_cons, readStage3_eq]
    | error e =>
      simp [readStage2, he, tableOfResult, firstClean_cons, emptyTable_isEmpty, readStage3_eq]
  · simp [readStage2, he, readStage3_eq]

/-- Claim C3 (amended): the reader tries openpyxl, then xlrd only for a
filename whose lowercased extension is .xls, then raw-XML recovery; the
first strategy yielding a non-empty table wins and the reader returns that
table passed through the cleaner (not the raw table itself); when every
strategy fails or yields empty -- including a failed download -- the result
is the empty table and no exception escapes, each strategy failure being
swallowed locally. -/
theorem readExcel_strategy_chain (dl : Bool) (s1 s2 : Except String Table) (raw : Table)
    (fn : String) :
    readExcelFileRobust dl s1 s2 raw fn = firstNonEmptyStrategy dl s1 s2 raw fn := by
  cases dl with
  | false => rfl
  | true =>
    have hmain : readExcelFileRobust true s1 s2 raw fn =
        firstClean (strategyTables s1 s2 raw fn) := by
      cases s1 with
      | ok t1 =>
        by_cases h1 : t1.isEmpty <;>
          simp [readExcelFileRobust, strategyTables, tableOfResult, h1, firstClean_cons,
            readStage2_eq]
      | error e =>
        simp [readExcelFileRobust, strategyTables, tableOfResult, emptyTable_isEmpty,
          firstClean_cons, readStage2_eq]
    rw [hmain]
    rfl

/-- Claim C3 counterexample: with the first strategy producing a non-empty
table holding a duplicate row, the reader returns the cleaned table, which
differs from the first non-empty table itself, so the claim's "returns the
first non-empty table" is not literally what the code does. -/
theorem readExcel_returns_cleaned_counterexample :
    dupRowsTable.isEmpty = false
    ∧ readExcelFileRobust true (Except.ok dupRowsTable) (Except.error "boom") emptyTable
        "f.xlsx" = ⟨["A", "B"], [[Scalar.intV 1, Scalar.intV 1]]⟩
    ∧ readExcelFileRobust true (Except.ok dupRowsTable) (Except.error "boom") emptyTable
        "f.xlsx" ≠ dupRowsTable := by decide

/-- Claim C4 (amended): for a non-empty table the cleaner keeps the columns,
and its rows are obtained from the step-1-normalized rows (trim and de-quote
in object-typed columns) by dropping, when there are at least two columns,
exactly the rows whose normalized second cell is missing, blank, or "nan",
then dropping exact duplicates so that the result has no duplicate row and
is a subsequence (order preserved) of the normalized rows; with fewer than
two columns only deduplication applies. -/
theorem cleanDataframe_spec (t : Table) (hne : t.isEmpty = false) :
    (cleanDataframe t).cols = t.cols
    ∧ (cleanDataframe t).rows.Sublist (normalizeRows t)
    ∧ (cleanDataframe t).rows.Nodup
    ∧ (2 ≤ t.cols.length → ∀ r, r ∈ (cleanDataframe t).rows ↔
        r ∈ normalizeRows t ∧ isBlankKey (r.getD 1 Scalar.empty) = false)
    ∧ (t.cols.length < 2 → ∀ r, r ∈ (cleanDataframe t).rows ↔ r ∈ normalizeRows t) := by
  have hcd : cleanDataframe t =
      ⟨t.cols, dedupFirst (if 2 ≤ t.cols.length then
        (normalizeRows t).filter (fun r => !(isBlankKey (r.getD 1 Scalar.empty)))
      else normalizeRows t)⟩ := by
    simp [cleanDataframe, hne]
  rw [hcd]
  refine ⟨rfl, ?_, dedupFirst_nodup _, ?_, ?_⟩
  · by_cases h2 : 2 ≤ t.cols.length
    · simp only [if_pos h2]
      exact (dedupFirst_sublist _).trans (List.filter_sublist _)
    · simp only [if_neg h2]
      exact dedupFirst_sublist _
  · intro h2 r
    simp only [if_pos h2]
    rw [mem_dedupFirst]
    simp [List.mem_filter]
  · intro h2 r
    rw [if_neg (Nat.not_le.mpr h2)]
    rw [mem_dedupFirst]

theorem cleanDataframe_spec_witness :
    (cleanDataframe tCleanDemo).cols = ["A", "B"]
    ∧ (cleanDataframe tCleanDemo).rows.Nodup := by
  obtain ⟨h1, -, h3, -, -⟩ := cleanDataframe_spec tCleanDemo (by decide)
  exact ⟨h1, h3⟩

/-- Claim C4 counterexample: the second-column value " 'nan' " is not empty,
not whitespace-only after trimming, and not the literal text "nan", yet the
cleaner drops the row, because the de-quoting of step 1 turns it into "nan"
before the filter runs. -/
theorem cleanDataframe_dequote_counterexample :
    pyStrip quotedNanPadded ≠ ""
    ∧ pyStrip quotedNanPadded ≠ "nan"
    ∧ cleanDataframe ⟨["A", "B"], [[Scalar.strV "x", Scalar.strV quotedNanPadded]]⟩ =
        ⟨["A", "B"], []⟩ := by decide

/-- Claim C5: CellCoercion strips surrounding whitespace and removes
embedded apostrophes, parses a float when the text has a dot or exponent
marker and an int otherwise, retains the (cleaned) text on parse failure,
and keeps None/"" empty: "3.14" gives the float 157/50 = 3.14, "42" the
int 42, "1e5" the float 100000, "abc" stays text, "" stays the blank cell,
and None stays None; the blank cell is the model's empty text value. -/
theorem cellCoercion_values :
    cleanCellValue none = none
    ∧ cleanCellValue (some "3.14") = some (Scalar.floatV (mkPyRat 157 50))
    ∧ cleanCellValue (some "42") = some (Scalar.intV 42)
    ∧ cleanCellValue (some "1e5") = some (Scalar.floatV (mkPyRat 100000 1))
    ∧ cleanCellValue (some "abc") = some (Scalar.strV "abc")
    ∧ cleanCellValue (some "") = some (Scalar.strV "")
    ∧ cleanCellValue (some "  42  ") = some (Scalar.intV 42)
    ∧ cleanCellValue (some (String.mk [' ', quoteChar, 'a', 'b', quoteChar, ' '])) =
        some (Scalar.strV "ab")
    ∧ mkPyRat 157 50 = ⟨157, 50⟩ ∧ mkPyRat 100000 1 = ⟨100000, 1⟩ := by decide

/-- Claim C6: a cell reference made of column letters followed by row digits
decodes to the base-26 column value (A = 1 .. Z = 26) and the digits as the
1-based row; in particular A gives 1, Z gives 26, AA gives 27. -/
theorem cellRef_base26_decode (ls ds : List Char)
    (hl : ∀ c ∈ ls, isAlphaCh c = true) (hd : ∀ c ∈ ds, isDigitCh c = true) :
    parseCellRef (String.mk (ls ++ ds)) = (digitsToNat ds, colLettersToNum ls)
    ∧ colLettersToNum ['A'] = 1 ∧ colLettersToNum ['Z'] = 26
    ∧ colLettersToNum ['A', 'A'] = 27 := by
  refine ⟨?_, by decide, by decide, by decide⟩
  have h1 : ls.filter isDigitCh = [] := by
    rw [List.filter_eq_nil_iff]
    intro c hc
    simp [isAlphaCh_not_isDigitCh c (hl c hc)]
  have h2 : ds.filter isDigitCh = ds := by
    rw [List.filter_eq_self]
    exact hd
  have h3 : ls.filter isAlphaCh = ls := by
    rw [List.filter_eq_self]
    exact hl
  have h4 : ds.filter isAlphaCh = [] := by
    rw [List.filter_eq_nil_iff]
    intro c hc
    simp [isDigitCh_not_isAlphaCh c (hd c hc)]
  have htl : (String.mk (ls ++ ds)).toList = ls ++ ds := rfl
  simp only [parseCellRef, htl, List.filter_append, h1, h2, h3, h4, List.nil_append,
    List.append_nil]

theorem cellRef_base26_decode_witness : parseCellRef "AA10" = (10, 27) := by
  have h := cellRef_base26_decode ['A', 'A'] ['1', '0'] (by decide) (by decide)
  calc parseCellRef "AA10" = parseCellRef (String.mk (['A', 'A'] ++ ['1', '0'])) := rfl
    _ = (digitsToNat ['1', '0'], colLettersToNum ['A', 'A']) := h.1
    _ = (10, 27) := by decide

/-- Claim C7 (amended): the sentinel selector synthesizes Column_1..Column_N
names sized to the first row and keeps every grid row as data; a
non-negative selector that leaves at least one data row turns the selected
row into the header, synthesizing names for the cells that are Python-falsy
(blank, missing, or zero -- not only blank ones); and a grid with fewer rows
than header plus one data row gives the empty table. -/
theorem rawXml_header_selector :
    (∀ d : List (List Scalar), 1 ≤ d.length →
        rawXmlBuildTable d (-1) = ⟨colNamesFor (d.headD []).length, d⟩)
    ∧ (∀ (d : List (List Scalar)) (hr : Nat), hr + 2 ≤ d.length →
        rawXmlBuildTable d (hr : Int) = ⟨synthHeaders (d.getD hr []), d.drop (hr + 1)⟩)
    ∧ (∀ (d : List (List Scalar)) (hr : Int), (d.length : Int) < max 1 (hr + 2) →
        rawXmlBuildTable d hr = emptyTable) := by
  refine ⟨?_, ?_, ?_⟩
  · intro d hd
    have hg : ¬ ((d.length : Int) < max 1 ((-1 : Int) + 2)) := by
      have hm : max (1 : Int) ((-1 : Int) + 2) = 1 := by norm_num
      rw [hm]
      omega
    unfold rawXmlBuildTable
    rw [if_neg hg, if_pos rfl]
  · intro d hr h2
    have hg : ¬ ((d.length : Int) < max 1 ((hr : Int) + 2)) := by
      have hm : max (1 : Int) ((hr : Int) + 2) = (hr : Int) + 2 := by
        apply max_eq_right
        omega
      rw [hm]
      omega
    have hne : ¬ ((hr : Int) = -1) := by omega
    have hlt : ((hr : Int)).toNat < d.length := by omega
    unfold rawXmlBuildTable
    rw [if_neg hg, if_neg hne, if_pos hlt]
    simp only [Int.toNat_natCast]
  · intro d hr hg
    unfold rawXmlBuildTable
    rw [if_pos hg]

theorem rawXml_header_selector_witness :
    rawXmlBuildTable grid34 (-1) =
      ⟨["Column_1", "Column_2", "Column_3", "Column_4"], grid34⟩
    ∧ (rawXmlBuildTable grid34 (-1)).rows.length = 3
    ∧ rawXmlBuildTable grid34 5 = emptyTable := by
  obtain ⟨h1, h2, h3⟩ := rawXml_header_selector
  have ha := h1 grid34 (by decide)
  refine ⟨ha.trans (by decide), ?_, h3 grid34 5 (by decide)⟩
  rw [ha]
  decide

/-- Claim C7 counterexample: a header cell holding the integer 0 is neither
missing nor blank, yet the selected header row gets a synthesized name in
its place, because the code tests Python truthiness rather than blankness. -/
theorem rawXml_zero_header_counterexample :
    rawXmlBuildTable [[Scalar.intV 0, Scalar.strV "x"], [Scalar.strV "a", Scalar.strV "b"]] 0 =
      ⟨["Column_1", "x"], [[Scalar.strV "a", Scalar.strV "b"]]⟩
    ∧ Scalar.intV 0 ≠ Scalar.strV ""
    ∧ Scalar.intV 0 ≠ Scalar.empty
    ∧ pyStr (Scalar.intV 0) = "0"
    ∧ (["Column_1", "x"] : List String) ≠ ["0", "x"] := by decide

/-- Claim C1 (amended): a candidate is considered already merged iff its
name equals the whitespace-stripped value of some cell of the tracking
column whose stripped value is non-blank (for names without surrounding
whitespace this coincides with exact match); such a candidate never enters
the processing list and its name is never appended, so a second run over a
destination already carrying the name leaves its rows untouched. -/
theorem ledger_gate_idempotent (values : List (List String)) (headers : List String)
    (rows : List (List String)) (i : Nat) (name : String) (files : List WFile)
    (hv : values = headers :: rows) (hidx : trackingIdx headers = some i) :
    (name ∈ getSourceFileNames values ↔
      name ≠ "" ∧ ∃ r ∈ rows, i < r.length ∧ pyStrip (r.getD i "") = name)
    ∧ (name ∈ getSourceFileNames values →
        (∀ f ∈ workflowToProcess (getSourceFileNamesRun (Except.ok values)) files,
          f.name ≠ name)
        ∧ name ∉ (processExcelWorkflow (Except.ok values) files).appendedNames) := by
  subst hv
  constructor
  · simp only [getSourceFileNames, hidx]
    rw [List.mem_filterMap]
    constructor
    · rintro ⟨r, hr, hcond⟩
      by_cases hlen : i < r.length
      · rw [if_pos hlen] at hcond
        by_cases hban : pyStrip (r.getD i "") ≠ ""
        · rw [if_pos hban] at hcond
          have hna := Option.some.inj hcond
          exact ⟨hna ▸ hban, r, hr, hlen, hna⟩
        · rw [if_neg hban] at hcond
          exact absurd hcond (by simp)
      · rw [if_neg hlen] at hcond
        exact absurd hcond (by simp)
    · rintro ⟨hname, r, hr, hlen, hval⟩
      refine ⟨r, hr, ?_⟩
      rw [if_pos hlen, if_pos (by rw [hval]; exact hname)]
      rw [hval]
  · intro hmem
    have hto : ∀ f ∈ workflowToProcess
        (getSourceFileNamesRun (Except.ok (headers :: rows))) files, f.name ≠ name := by
      intro f hf hfn
      rw [workflowToProcess, List.mem_filter] at hf
      obtain ⟨-, hc⟩ := hf
      rw [hfn] at hc
      simp only [getSourceFileNamesRun] at hc
      simp at hc
      exact hc hmem
    refine ⟨hto, ?_⟩
    intro habs
    have hmap := processFiles_names_sub
      (workflowToProcess (getSourceFileNamesRun (Except.ok (headers :: rows))) files)
      name habs
    rw [List.mem_map] at hmap
    obtain ⟨f, hf, hfn⟩ := hmap
    exact hto f hf hfn

theorem ledger_gate_idempotent_witness :
    "a.xlsx" ∈ getSourceFileNames [["source_file_name"], ["a.xlsx"]]
    ∧ "a.xlsx" ∉ (processExcelWorkflow (Except.ok [["source_file_name"], ["a.xlsx"]])
        [⟨"a.xlsx", demoTable, Except.ok ()⟩]).appendedNames := by
  have hmem : "a.xlsx" ∈ getSourceFileNames [["source_file_name"], ["a.xlsx"]] := by decide
  have h := ledger_gate_idempotent [["source_file_name"], ["a.xlsx"]] ["source_file_name"]
    [["a.xlsx"]] 0 "a.xlsx" [⟨"a.xlsx", demoTable, Except.ok ()⟩] rfl (by decide)
  exact ⟨hmem, (h.2 hmem).2⟩

/-- Claim C1 counterexample: the candidate name " a.xlsx " exactly matches
the existing non-blank value " a.xlsx " of the tracking column, yet the run
does not consider it merged: it is not skipped, and its rows are appended
again, because the gate compares the name against the stripped cell. -/
theorem ledger_gate_exact_counterexample :
    trackingColumnCells [["source_file_name"], [" a.xlsx "]] = [" a.xlsx "]
    ∧ pyStrip " a.xlsx " ≠ ""
    ∧ (processExcelWorkflow (Except.ok [["source_file_name"], [" a.xlsx "]])
        [⟨" a.xlsx ", demoTable, Except.ok ()⟩]).skippedCount = 0
    ∧ (processExcelWorkflow (Except.ok [["source_file_name"], [" a.xlsx "]])
        [⟨" a.xlsx ", demoTable, Except.ok ()⟩]).appendedNames = [" a.xlsx "] := by decide

/-- Claim C10: when the ledger read raises, the gate returns the empty set,
nothing is skipped, and every candidate is attempted (extracted and, when
non-empty, appended) regardless of what the destination contains. -/
theorem ledger_read_failure_processes_all (msg : String) (files : List WFile) :
    getSourceFileNamesRun (Except.error msg) = []
    ∧ workflowToProcess (getSourceFileNamesRun (Except.error msg)) files = files
    ∧ (processExcelWorkflow (Except.error msg) files).skippedCount = 0
    ∧ (processExcelWorkflow (Except.error msg) files).processedCount +
        (processExcelWorkflow (Except.error msg) files).failedCount = files.length := by
  have hW : workflowToProcess (getSourceFileNamesRun (Except.error msg)) files = files := by
    simp [workflowToProcess, getSourceFileNamesRun]
  refine ⟨rfl, hW, ?_, ?_⟩
  · simp [processExcelWorkflow, getSourceFileNamesRun]
  · show (processFiles (workflowToProcess (getSourceFileNamesRun (Except.error msg))
        files)).processed +
      (processFiles (workflowToProcess (getSourceFileNamesRun (Except.error msg))
        files)).failed = files.length
    rw [hW]
    exact processFiles_total files

/-- Claim C8 (amended): an append failure during a merge is re-raised by the
sheet writer, caught at the file boundary of the batch loop (the file counts
as failed and appends nothing), and files before and after it are processed
exactly as without it; a failure of the compaction rewrite, however, is
swallowed inside the compaction routine, which returns a plain 0 instead of
propagating. -/
theorem write_failure_aborts_file_not_batch :
    (∀ (vals : List (List Scalar)) (e : String),
      appendToSheet vals (Except.error e) =
        if vals.isEmpty then Except.ok () else Except.error e)
    ∧ (∀ (pre post : List WFile) (f : WFile) (msg : String),
        f.extracted.isEmpty = false → f.appendOk = Except.error msg →
        (processFiles (pre ++ f :: post)).processed =
            (processFiles pre).processed + (processFiles post).processed
        ∧ (processFiles (pre ++ f :: post)).failed =
            (processFiles pre).failed + (processFiles post).failed + 1
        ∧ (processFiles (pre ++ f :: post)).appendedNames =
            (processFiles pre).appendedNames ++ (processFiles post).appendedNames)
    ∧ (∀ (vals : List (List String)) (msg : String),
        removeDuplicatesRun (Except.ok vals) (Except.error msg) = 0) := by
  refine ⟨?_, ?_, ?_⟩
  · intro vals e
    by_cases h : vals.isEmpty <;> simp [appendToSheet, h]
  · intro pre post f msg hne happ
    have htag : (taggedValues f).isEmpty = false := by
      have hrows : f.extracted.rows.isEmpty = false := by
        simp only [Table.isEmpty, Bool.or_eq_false_iff] at hne
        exact hne.1
      simp only [taggedValues]
      cases hE : f.extracted.rows with
      | nil => rw [hE] at hrows; simp at hrows
      | cons a as => simp [hE]
    have hstep : processFiles (f :: post) =
        ⟨(processFiles post).processed, (processFiles post).failed + 1,
          (processFiles post).appendedNames⟩ := by
      simp [processFiles, hne, appendToSheet, htag, happ]
    obtain ⟨hp, hf, hn⟩ := processFiles_append pre (f :: post)
    rw [hstep] at hp hf hn
    dsimp only at hp hf hn
    exact ⟨hp, by rw [hf]; omega, hn⟩
  · intro vals msg
    by_cases h : vals.isEmpty <;> simp [removeDuplicatesRun, h]

theorem write_failure_aborts_file_not_batch_witness :
    (processFiles [⟨"bad.xlsx", demoTable, Except.error "quota"⟩,
        ⟨"good.xlsx", demoTable, Except.ok ()⟩]).processed = 1
    ∧ (processFiles [⟨"bad.xlsx", demoTable, Except.error "quota"⟩,
        ⟨"good.xlsx", demoTable, Except.ok ()⟩]).failed = 1
    ∧ removeDuplicatesRun (Except.ok dupPairValues) (Except.error "quota") = 0 := by
  have h := write_failure_aborts_file_not_batch
  have h2 := h.2.1 [] [⟨"good.xlsx", demoTable, Except.ok ()⟩]
    ⟨"bad.xlsx", demoTable, Except.error "quota"⟩ "quota" (by decide) rfl
  exact ⟨h2.1.trans (by decide), h2.2.1.trans (by decide), h.2.2 dupPairValues "quota"⟩

/-- Claim C8 counterexample: a failed compaction rewrite is not surfaced:
the compaction run returns the ordinary value 0 -- the same shape a
successful run with no duplicates returns -- although the same destination
content with a successful write reports 1 duplicate removed; nothing is
propagated to the batch level. -/
theorem compaction_write_failure_swallowed_counterexample :
    removeDuplicatesRun (Except.ok dupPairValues) (Except.error "quota") = 0
    ∧ removeDuplicatesRun (Except.ok dupPairValues) (Except.ok ()) = 1 := by decide

/-- Claim C2 (amended): within CompactionPass, the duplicate-removal step
leaves, for every (Skucode, PoNo) key pair, exactly the first-encountered
row carrying that pair in pre-compaction order; a surviving row that is
entirely blank (possible only when the pair itself is blank) is removed
afterwards by the blank-row pruning, so such a pair can end with zero rows
in the rewritten destination. -/
theorem compaction_dedup_keeps_first (values : List (List String)) (si pi2 : Nat)
    (p : String × String)
    (hsi : List.findIdx? (fun h => h = "Skucode") (compactHeaders values) = some si)
    (hpi : List.findIdx? (fun h => h = "PoNo") (compactHeaders values) = some pi2) :
    (compactDedup values).filter (fun r => decide (rowKeyPair si pi2 r = p)) =
      ((compactDataRows values).filter (fun r => decide (rowKeyPair si pi2 r = p))).take 1 := by
  simp only [compactDedup, hsi, hpi]
  exact dedupByKey_filter (rowKeyPair si pi2) p (compactDataRows values)

theorem compaction_dedup_keeps_first_witness :
    (compactDedup dupPairValues).filter
        (fun r => decide (rowKeyPair 0 1 r = ("1", "2"))) = [["1", "2"]] := by
  have h := compaction_dedup_keeps_first dupPairValues 0 1 ("1", "2") (by decide) (by decide)
  exact h.trans (by decide)

/-- Claim C2 counterexample: the destination holds two rows with the
duplicate blank key pair; after the full pass the written data rows carry no
row with that pair at all (the dedup survivor was entirely blank and the
blank-row pruning removed it), so "exactly one row per distinct pair
survives" fails for the whole pass. -/
theorem compaction_blank_pair_counterexample :
    ((compactDataRows cexValues).filter
        (fun r => decide (rowKeyPair 0 1 r = ("", "")))).length = 2
    ∧ compactWritten cexValues =
        [[Scalar.strV "Skucode", Scalar.strV "PoNo", Scalar.strV "X"],
         [Scalar.strV "a", Scalar.strV "b", Scalar.strV "c"]]
    ∧ ((compactWritten cexValues).drop 1).countP
        (fun r => decide (r.getD 0 (Scalar.strV "") = Scalar.strV ""
          ∧ r.getD 1 (Scalar.strV "") = Scalar.strV "")) = 0
    ∧ compactRemovedDup cexValues = 1 := by decide

/-- Claim C9 (amended): when a key column is absent the compaction skips
only the dedup step (the data rows pass through it unchanged and the
reported duplicate count is 0); blank-row pruning still runs, and the
written data rows are exactly the pruned rows (reordered by the PoNo sort
when that column survives). -/
theorem compaction_schema_drift (values : List (List String))
    (h : List.findIdx? (fun s => s = "Skucode") (compactHeaders values) = none ∨
        List.findIdx? (fun s => s = "PoNo") (compactHeaders values) = none) :
    compactDedup values = compactDataRows values
    ∧ compactRemovedDup values = 0
    ∧ compactRemovedBlank values =
        (compactDataRows values).length - (prunedRows values).length
    ∧ (compactWritten values).length = (prunedRows values).length + 1 := by
  have hd : compactDedup values = compactDataRows values := by
    rcases h with h | h
    · simp [compactDedup, h]
    · cases hsk : List.findIdx? (fun s => s = "Skucode") (compactHeaders values) with
      | none => simp [compactDedup, hsk]
      | some si => simp [compactDedup, hsk, h]
  have hs : (compactSorted values).length = (compactRows2 values).length := by
    cases hpo : List.findIdx? (fun h => h = "PoNo") (compactHeaders2 values) with
    | none => simp [compactSorted, hpo]
    | some k => simp [compactSorted, hpo, length_sortByLe]
  refine ⟨hd, ?_, ?_, ?_⟩
  · simp [compactRemovedDup, hd]
  · simp [compactRemovedBlank, hd]
  · simp [compactWritten, hs, compactRows2]

theorem compaction_schema_drift_witness :
    compactRemovedDup drift9 = 0 ∧ (compactWritten drift9).length = 3 := by
  have h := compaction_schema_drift drift9 (Or.inl (by decide))
  exact ⟨h.2.1, h.2.2.2.trans (by decide)⟩

/-- Claim C9 counterexample: with the Skucode column absent, the pass still
prunes the all-blank row (3 data rows in, 2 out) and still sorts by PoNo
(the written rows are reordered), contradicting "only blank-pruning and
sort are skipped". -/
theorem compaction_schema_drift_counterexample :
    List.findIdx? (fun s => s = "Skucode") (compactHeaders drift9) = none
    ∧ compactWritten drift9 =
        [[Scalar.strV "A", Scalar.strV "PoNo"],
         [Scalar.strV "y", Scalar.intV 1], [Scalar.strV "x", Scalar.intV 2]]
    ∧ (compactDataRows drift9).length = 3
    ∧ (prunedRows drift9).length = 2 := by decide
